import Mathlib

/-!
# Owon B35 frame decoder (`owoncli.c`)

A shallow embedding of the body of the read loop of `main` in `owoncli.c`:
the marker search and length gate, the `strtol` hex decode loop, the cascade
of `switch` statements that interpret the 14 bytes of a frame, and the final
`snprintf` that renders the reading.

Modelling conventions.

* A C string is a `List Char`, one `Char` per C `char`, the terminating NUL
  left implicit (the list holds the characters before it).
* `uint8_t` values are `Fin 256`; the array `d[14]` is a function
  `Fin 14 → Fin 256`.  The counter `dps` (also `uint8_t`) is a `Nat` with
  explicit `% 256` on `++` and `--`.
* The `double v` is modelled by an exact signed decimal fraction
  (`Dbl`: sign bit, mantissa, decimal scale).  Every operation the program
  performs on `v` (conversion from `int`, division by 10, 100, 1000,
  multiplication by 10, negation) is exact in this model, which gives the
  digits that `snprintf` prints.  The binary64 value itself, with the
  rounding of each operation, is `b64Value` (type `B64`); the two agree on
  the printed text but not on equalities between values that were scaled
  along different paths.
* `strtol`, `strstr` and the `%f`, `%d`, `%s` conversions of `snprintf` belong
  to the C library; they are modelled from ISO C (LP64 `long`).
-/

namespace Owon

/-! ## Data model -/

/-- C string: the characters before the terminating NUL. -/
abbrev CStr := List Char

/-- Unsigned 8-bit value (`uint8_t`). -/
abbrev Byte := Fin 256

/-- The array `uint8_t d[14]`. -/
abbrev Frame := Fin 14 → Byte

/-- Conversion of an integer to `uint8_t` (reduction modulo 256). -/
def Byte.ofInt (x : Int) : Byte :=
  ⟨(x % 256).toNat, by omega⟩

/-- Frame given by a list of byte values (missing entries are 0). -/
def Frame.ofList (l : List Nat) : Frame :=
  fun i => Byte.ofInt (l.getD i.val 0)

/-- Assignment `d[i] = x`. -/
def setByte (d : Frame) (i : Nat) (x : Byte) : Frame :=
  fun j => if j.val = i then x else d j

/-- The table `uint8_t OLs[] = { 0x2b, 0x3f, 0x30, 0x3a, 0x3f }`. -/
def OLs : List Byte := [0x2b, 0x3f, 0x30, 0x3a, 0x3f]

/-- Exact model of the values taken by `double v`: `(-1)^neg * mant / 10^scale`. -/
structure Dbl where
  neg : Bool
  mant : Nat
  scale : Nat
deriving DecidableEq, Repr

namespace Dbl

/-- Conversion of an `int` to `double`. -/
def ofInt (i : Int) : Dbl := ⟨decide (i < 0), i.natAbs, 0⟩

/-- Division `v / 10^k`. -/
def div10 (x : Dbl) (k : Nat) : Dbl := { x with scale := x.scale + k }

/-- Multiplication `v * 10`. -/
def mul10 (x : Dbl) : Dbl :=
  if x.scale = 0 then { x with mant := x.mant * 10 } else { x with scale := x.scale - 1 }

/-- Unary minus `-v` (flips the sign bit). -/
def negate (x : Dbl) : Dbl := { x with neg := !x.neg }

/-- The rational number a `Dbl` stands for. -/
def toRat (x : Dbl) : ℚ := (if x.neg then -1 else 1) * (x.mant : ℚ) / (10 : ℚ) ^ x.scale

end Dbl

/-- The locals of `main` that the interpretation fills in. -/
structure Reading where
  v : Dbl
  dps : Nat
  mmode : String
  minmax : String
  uprefix : String
  units : String
deriving DecidableEq, Repr

/-- What one iteration of the read loop yields: `continue` without output
(no marker), `continue` after the waiting indicator, or the display string
left in `cmd`. -/
inductive Outcome where
  | skip
  | waiting
  | display (cmd : String)
deriving DecidableEq, Repr

/-! ## Frame extraction and hex decoding -/

/-- The search string of `strstr(cmd, "2e value: ")`. -/
def marker : CStr := "2e value: ".toList

/-- The function `strstr`: the suffix starting at the first occurrence of `needle`. -/
def strstr : CStr → CStr → Option CStr
  | [], needle => if needle = [] then some [] else none
  | c :: t, needle => if needle.isPrefixOf (c :: t) then some (c :: t) else strstr t needle

/-- The predicate `isspace` in the C locale. -/
def isspace (c : Char) : Bool :=
  c = ' ' || c = '\t' || c = '\n' || c = '\x0b' || c = '\x0c' || c = '\r'

/-- Value of a base-16 digit. -/
def hexVal (c : Char) : Option Nat :=
  if '0' ≤ c ∧ c ≤ '9' then some (c.toNat - 48)
  else if 'a' ≤ c ∧ c ≤ 'f' then some (c.toNat - 87)
  else if 'A' ≤ c ∧ c ≤ 'F' then some (c.toNat - 55)
  else none

/-- The digit loop of `strtol`: accumulated value, number of digits read, rest. -/
def scanHex : CStr → Nat → Nat → Nat × Nat × CStr
  | [], acc, n => (acc, n, [])
  | c :: t, acc, n =>
    match hexVal c with
    | some x => scanHex t (acc * 16 + x) (n + 1)
    | none => (acc, n, c :: t)

/-- The constant `LONG_MAX` of a 64-bit `long`. -/
def LONG_MAX : Int := 2 ^ 63 - 1

/-- The constant `LONG_MIN` of a 64-bit `long`. -/
def LONG_MIN : Int := -(2 ^ 63)

/-- The call `strtol(p, &q, 16)`: the value and the end pointer `q`.  White space is
skipped, then an optional sign and an optional `0x`; without any digit the
value is 0 and `q` is `p` (or points at the `x` of a bare `0x`).  The end
pointer is never NULL. -/
def strtol (p : CStr) : Int × Option CStr :=
  let s1 := p.dropWhile isspace
  let neg : Bool := match s1 with
    | [] => false
    | c :: _ => c = '-'
  let s2 := match s1 with
    | [] => s1
    | c :: t => if c = '-' ∨ c = '+' then t else s1
  let pre : Bool := match s2 with
    | c :: x :: _ => c = '0' && (x = 'x' || x = 'X')
    | _ => false
  let s3 := if pre then s2.drop 2 else s2
  match scanHex s3 0 0 with
  | (acc, n, rest) =>
    if n = 0 then
      if pre then (0, some (s2.drop 1)) else (0, some p)
    else
      let x : Int := if neg then -(acc : Int) else (acc : Int)
      (max LONG_MIN (min LONG_MAX x), some rest)

/-- The loop `while (p && *p != '\0' && (i < 14))`; the first argument bounds
the number of iterations (each one increments `i`). -/
def decodeLoop : Nat → CStr → Nat → Frame → Frame × Nat
  | 0, _, i, d => (d, i)
  | fuel + 1, p, i, d =>
    if p ≠ [] ∧ i < 14 then
      match strtol p with
      | (x, q) =>
        let d1 := setByte d i (Byte.ofInt x)
        match q with
        | none => (d1, i)
        | some q1 => decodeLoop fuel q1 (i + 1) d1
    else (d, i)

/-- The hex decode loop started with `i = 0` on the array content `d0` left
in `d` (the array is not initialised). -/
def hexDecode (d0 : Frame) (p : CStr) : Frame × Nat :=
  decodeLoop 14 p 0 d0

/-! ## Interpretation -/

/-- The sum `((d[1]-'0')*1000) + ((d[2]-'0')*100) + ((d[3]-'0')*10) + ((d[4]-'0')*1)`. -/
def magnitude (d : Frame) : Int :=
  (((d 1).val : Int) - 48) * 1000 + (((d 2).val : Int) - 48) * 100
    + (((d 3).val : Int) - 48) * 10 + (((d 4).val : Int) - 48) * 1

/-- The statements `v = ...; dps = 0; switch (d[6])`; the four label buffers,
not yet written, are shown empty. -/
def selectDps (d : Frame) : Reading :=
  let v := Dbl.ofInt (magnitude d)
  let r : Reading := ⟨v, 0, "", "", "", ""⟩
  match (d 6).val with
  | 48 => r
  | 49 => { r with v := v.div10 3, dps := 3 }
  | 50 => { r with v := v.div10 2, dps := 2 }
  | 51 => { r with v := v.div10 1, dps := 1 }
  | _ => r

/-- The statements `mmode[0] = '\0'; switch (d[7])`. -/
def modeStage (d : Frame) (r : Reading) : Reading :=
  let r := { r with mmode := "" }
  match (d 7).val with
  | 0 => { r with mmode := " " }
  | 1 => { r with mmode := "Manual" }
  | 8 => { r with mmode := "AC-minmax" }
  | 9 => { r with mmode := "AC-manual" }
  | 16 => { r with mmode := "DC-minmax" }
  | 17 => { r with mmode := "DC-manual" }
  | 20 => { r with mmode := "Delta" }
  | 32 => { r with mmode := " " }
  | 33 => { r with mmode := "Auto" }
  | 41 => { r with mmode := "AC-auto" }
  | 49 =>
    if (d 6).val = 50 then
      { r with mmode := "DC-auto", v := r.v.mul10, dps := (r.dps + 255) % 256 }
    else { r with mmode := "DC-auto" }
  | 51 => { r with mmode := "Hold" }
  | n => { r with mmode := "#" ++ toString n ++ ")" }

/-- The statements `minmax[0] = '\0'; switch (d[8])`. -/
def minmaxStage (d : Frame) (r : Reading) : Reading :=
  let r := { r with minmax := "" }
  match (d 8).val with
  | 16 => { r with minmax := "min" }
  | 32 => { r with minmax := "max" }
  | _ => { r with minmax := "" }

/-- The statements `uprefix[0] = '\0'; switch (d[9])`. -/
def prefixStage (d : Frame) (r : Reading) : Reading :=
  let r := { r with uprefix := "" }
  match (d 9).val with
  | 0 =>
    if (d 10).val = 4 then
      { r with v := r.v.div10 1, dps := (r.dps + 1) % 256, uprefix := "n" }
    else r
  | 2 => { r with uprefix := "duty" }
  | 4 => { r with mmode := "Diode" }
  | 8 => { r with uprefix := " " }
  | 16 => { r with uprefix := "M" }
  | 32 => { r with uprefix := "K" }
  | 64 =>
    if (d 10).val = 128 ∨ (d 10).val = 64 then
      { r with uprefix := "m", v := r.v.div10 1, dps := (r.dps + 1) % 256 }
    else { r with uprefix := "m" }
  | 128 => { r with uprefix := "u" }
  | n => { r with uprefix := "#" ++ toString n }

/-- The statements `units[0] = '\0'; switch(d[10])`; `case 0` has no `break`
and runs on into `case 1`. -/
def unitsStage (d : Frame) (r : Reading) : Reading :=
  let r := { r with units := "" }
  match (d 10).val with
  | 0 =>
    let r0 := { r with units := "%" }
    { r0 with units := "'F" }
  | 1 => { r with units := "'F" }
  | 2 => { r with units := "'C" }
  | 4 => { r with units := "F" }
  | 8 => { r with units := "Hz" }
  | 16 => { r with units := "hFe" }
  | 32 => { r with units := "Ohm", v := r.v.div10 1, dps := (r.dps + 1) % 256 }
  | 64 => { r with units := "A" }
  | 128 => { r with units := "V" }
  | n => { r with units := "#" ++ toString n }

/-- The reading before the polarity statement: all four label switches done. -/
def unsigned (d : Frame) : Reading :=
  unitsStage d (prefixStage d (minmaxStage d (modeStage d (selectDps d))))

/-- The statement `if (d[0] == '-') v = -v;`. -/
def polarity (d : Frame) (r : Reading) : Reading :=
  if (d 0).val = 45 then { r with v := r.v.negate } else r

/-- The interpretation of a frame: every statement from the magnitude to the
polarity. -/
def interpret (d : Frame) : Reading :=
  polarity d (unsigned d)

/-! ## Formatting -/

/-- Left padding with `'0'` up to `n` characters. -/
def zeroPad (n : Nat) (s : String) : String :=
  String.mk (List.replicate (n - s.length) '0') ++ s

/-- The conversion `%+0<width>.<prec>f`: the value rounded to `prec` decimals
(ties to even), an explicit sign, zeros between sign and digits up to `width`. -/
def printfF (width prec : Nat) (v : Dbl) : String :=
  let num := v.mant * 10 ^ prec
  let den := 10 ^ v.scale
  let q := num / den
  let r := num % den
  let n := if den < 2 * r ∨ (2 * r = den ∧ q % 2 = 1) then q + 1 else q
  let body := toString (n / 10 ^ prec)
    ++ (if prec = 0 then "" else "." ++ zeroPad prec (toString (n % 10 ^ prec)))
  (if v.neg then "-" else "+") ++ zeroPad (width - 1) body

/-- The test `memcmp( d, OLs, 5 ) == 0`. -/
def isOverload (d : Frame) : Bool :=
  [d 0, d 1, d 2, d 3, d 4] = OLs

/-- The two statements `if (dps < 0) dps = 0; if (dps > 4) dps = 4;`. -/
def clampDps (dps : Nat) : Nat :=
  let dps1 := if (dps : Int) < 0 then 0 else dps
  if dps1 > 4 then 4 else dps1

/-- The non-overload `snprintf` for one value of `dps`. -/
def numericLine (width prec : Nat) (r : Reading) : String :=
  printfF width prec r.v ++ r.uprefix ++ r.units ++ "\n" ++ r.mmode ++ " " ++ r.minmax

/-- The range check and the final `snprintf` into `cmd`; `cmd` is the content
of the buffer before (it is left as is when no `case` of `switch (dps)` matches). -/
def format (cmd : String) (d : Frame) (r : Reading) : String :=
  if isOverload d then "O.L " ++ r.units ++ "\n" ++ r.mmode
  else
    match clampDps r.dps with
    | 0 => numericLine 5 0 r
    | 1 => numericLine 6 1 r
    | 2 => numericLine 6 2 r
    | 3 => numericLine 6 3 r
    | 4 => numericLine 6 4 r
    | _ => cmd

/-- The display string of a decoded frame. -/
def display (cmd : String) (d : Frame) : String :=
  format cmd d (interpret d)

/-- One iteration of the read loop on the line held in `cmd`, with `d0` the
content of the uninitialised array `d`.  The statement
`p += sizeof("2e value:")` moves `p` by 10 characters, the length of the
marker, so `p` is the text right after the marker. -/
def processLine (d0 : Frame) (cmd : CStr) : Outcome :=
  match strstr cmd marker with
  | none => Outcome.skip
  | some p0 =>
    let p := p0.drop 10
    if p.length ≠ 43 then Outcome.waiting
    else Outcome.display (display (String.mk cmd) (hexDecode d0 p).1)


/-- The condition under which `switch (d[9])` rescales the value. -/
def prefixRescales (d : Frame) : Prop :=
  ((d 9).val = 0 ∧ (d 10).val = 4) ∨ ((d 9).val = 64 ∧ ((d 10).val = 128 ∨ (d 10).val = 64))

instance (d : Frame) : Decidable (prefixRescales d) := by
  unfold prefixRescales; infer_instance

/-- The frame of the end-to-end example, bytes 11..13 set to 0. -/
def exampleFrame : Frame :=
  Frame.ofList [0x2b, 0x30, 0x31, 0x32, 0x33, 0x30, 0x31, 0x21, 0x00, 0x80, 0x80, 0, 0, 0]

/-- An overload frame: sentinel, then unit code 32 and mode code 33. -/
def overloadFrame : Frame :=
  Frame.ofList [0x2b, 0x3f, 0x30, 0x3a, 0x3f, 0x30, 0x31, 0x21, 0x00, 0x80, 0x20, 0, 0, 0]

/-- The overload frame with other bytes 5, 6, 8, 11, 12, 13. -/
def overloadFrame2 : Frame :=
  Frame.ofList [0x2b, 0x3f, 0x30, 0x3a, 0x3f, 0x37, 0x33, 0x21, 0x10, 0x80, 0x20, 9, 8, 7]

/-- Hexadecimal digit of a value below 16, in upper or lower case. -/
def hexDigit (upper : Bool) (n : Nat) : Char :=
  if n < 10 then Char.ofNat (48 + n)
  else if upper then Char.ofNat (55 + n) else Char.ofNat (87 + n)

/-- The two-digit hexadecimal token of a byte, in upper or lower case. -/
def hexToken (upper : Bool) (b : Byte) : CStr :=
  [hexDigit upper (b.val / 16), hexDigit upper (b.val % 16)]

/-- The tokens of a list of bytes (each with its letter case), each followed
by one space, then a newline. -/
def encode : List (Bool × Byte) → CStr
  | [] => ['\n']
  | t :: ts => hexToken t.1 t.2 ++ ' ' :: encode ts

/-- The text that follows the marker for a frame `b`, token `i` written in
upper case when `upper i` holds. -/
def payload (upper : Fin 14 → Bool) (b : Frame) : CStr :=
  encode (List.ofFn fun i => (upper i, b i))

/-- The text `post` is what follows the first occurrence of `needle` in `line`. -/
def FollowsFirst (needle line pre post : CStr) : Prop :=
  line = pre ++ needle ++ post ∧
    ∀ pre1 post1, line = pre1 ++ needle ++ post1 → pre.length ≤ pre1.length

/-- The successive assignments `d[i] = b`, `d[i+1] = ...` of a list of bytes. -/
def writeBytes (d : Frame) : Nat → List Byte → Frame
  | _, [] => d
  | i, b :: bs => writeBytes (setByte d i b) (i + 1) bs

/-- A frame with digits `'0','1','2','3'` and byte 6 equal to 48. -/
def digitsFrame : Frame :=
  Frame.ofList [0x2b, 0x30, 0x31, 0x32, 0x33, 0x30, 0x30, 0x21, 0x00, 0x00, 0x80, 0, 0, 0]

/-- A marker line with only 10 hex tokens, padded with spaces to the expected
43 characters after the marker. -/
def paddedLine : CStr :=
  "Notification handle = 0x002e value: 2b 30 31 32 33 30 31 21 00 80             \n".toList

/-- A marker line with only 10 hex tokens (31 characters after the marker). -/
def shortLine : CStr := "2e value: 2b 30 31 32 33 30 31 21 00 80 \n".toList

/-- A complete marker line: 14 hex tokens, 43 characters after the marker. -/
def fullLine : CStr := "2e value: 2b 30 31 32 33 30 31 21 00 80 80 0a 0b 0c \n".toList

/-- The reading before `switch (d[9])`: magnitude, decimal-place selector,
mode and min/max switches done. -/
def beforePrefix (d : Frame) : Reading :=
  minmaxStage d (modeStage d (selectDps d))

/-- The numeric field of the non-overload display: the `%+05.0f` or
`%+06.<dps>f` conversion of `v` chosen by `switch (dps)` after the clamp. -/
def numericField (d : Frame) : String :=
  printfF (if clampDps (interpret d).dps = 0 then 5 else 6) (clampDps (interpret d).dps)
    (interpret d).v

/-! ## The value in binary64 -/

/-- Finite binary64 number `(-1)^neg * mant * 2^exp`: a normal number has
`2^52 ≤ mant < 2^53`, zero has `mant = 0` and `exp = 0`.  The exponent range
is not bounded: the values of the program are 0 or lie between `1e-5` and
`3e5` in magnitude, far from overflow and from the subnormal numbers. -/
structure B64 where
  neg : Bool
  mant : Nat
  exp : Int
deriving DecidableEq, Repr

namespace B64

/-- Scaling of the fraction `num / den * 2^e` by powers of two until
`2^52 ≤ num / den < 2^53`; the first argument bounds the number of steps. -/
def normalize : Nat → Nat → Nat → Int → Nat × Nat × Int
  | 0, num, den, e => (num, den, e)
  | fuel + 1, num, den, e =>
    if num < den * 2 ^ 52 then normalize fuel (2 * num) den (e - 1)
    else if den * 2 ^ 53 ≤ num then normalize fuel num (2 * den) (e + 1)
    else (num, den, e)

/-- Rounding of `(-1)^neg * num / den * 2^e` to the nearest binary64 number,
ties to even (the default rounding mode); `den` is not 0. -/
def round (neg : Bool) (num den : Nat) (e : Int) : B64 :=
  if num = 0 then ⟨neg, 0, 0⟩
  else
    match normalize 2200 num den e with
    | (n, dn, e1) =>
      let q := n / dn
      let r := n % dn
      let q1 := if dn < 2 * r ∨ (2 * r = dn ∧ q % 2 = 1) then q + 1 else q
      if q1 = 2 ^ 53 then ⟨neg, 2 ^ 52, e1 + 1⟩ else ⟨neg, q1, e1⟩

/-- Conversion of an `int` to `double`. -/
def ofInt (i : Int) : B64 := round (decide (i < 0)) i.natAbs 1 0

/-- Division `v / n` by a positive integer constant, correctly rounded. -/
def divNat (x : B64) (n : Nat) : B64 := round x.neg x.mant n x.exp

/-- Multiplication `v * n` by a positive integer constant, correctly rounded. -/
def mulNat (x : B64) (n : Nat) : B64 := round x.neg (x.mant * n) 1 x.exp

/-- Unary minus `-v` (flips the sign bit). -/
def negate (x : B64) : B64 := { x with neg := !x.neg }

end B64

/-- The variable `v` at the end of the interpretation, with every statement
of `main` that writes `v` carried out in binary64 (round to nearest, ties to
even, no excess precision): the conversion of the `int` sum, `switch (d[6])`,
`v *= 10` of `case 49`, the two `v /= 10` of `switch (d[9])`, `v = v/10` of
`case 32` and the polarity statement. -/
def b64Value (d : Frame) : B64 :=
  let v0 := B64.ofInt (magnitude d)
  let v1 := match (d 6).val with
    | 48 => v0
    | 49 => v0.divNat 1000
    | 50 => v0.divNat 100
    | 51 => v0.divNat 10
    | _ => v0
  let v2 := if (d 7).val = 49 ∧ (d 6).val = 50 then v1.mulNat 10 else v1
  let v3 :=
    if ((d 9).val = 0 ∧ (d 10).val = 4)
        ∨ ((d 9).val = 64 ∧ ((d 10).val = 128 ∨ (d 10).val = 64)) then v2.divNat 10
    else v2
  let v4 := if (d 10).val = 32 then v3.divNat 10 else v3
  if (d 0).val = 45 then v4.negate else v4

/-- A DC-auto frame with magnitude 7, byte 6 equal to 50 and byte 7 equal to 49. -/
def dcAutoFrame : Frame :=
  Frame.ofList [0x2b, 0x30, 0x30, 0x30, 0x37, 0x30, 0x32, 0x31, 0x00, 0x00, 0x80, 0, 0, 0]

/-! ## Hex tokens and the decode loop -/

theorem hexDigit_facts : ∀ (u : Bool) (n : Fin 16),
    isspace (hexDigit u n.val) = false ∧ hexDigit u n.val ≠ '-' ∧ hexDigit u n.val ≠ '+' ∧
    hexDigit u n.val ≠ 'x' ∧ hexDigit u n.val ≠ 'X' ∧
    hexVal (hexDigit u n.val) = some n.val := by
  decide

theorem hexVal_space : hexVal ' ' = none := by decide

theorem byteOfInt_val (b : Byte) : Byte.ofInt (b.val : Int) = b := by
  apply Fin.ext
  simp only [Byte.ofInt]
  omega

theorem strtol_token (u : Bool) (b : Byte) (r : CStr) :
    strtol (hexToken u b ++ ' ' :: r) = ((b.val : Int), some (' ' :: r)) := by
  have hhi : b.val / 16 < 16 := by omega
  have hlo : b.val % 16 < 16 := by omega
  obtain ⟨a1, a2, a3, _, _, a6⟩ := hexDigit_facts u ⟨b.val / 16, hhi⟩
  obtain ⟨_, _, _, c4, c5, c6⟩ := hexDigit_facts u ⟨b.val % 16, hlo⟩
  simp only at a1 a2 a3 a6 c4 c5 c6
  have hsum : b.val / 16 * 16 + b.val % 16 = b.val := by omega
  have hb := b.isLt
  simp [strtol, hexToken, List.dropWhile, a1, a2, a3, c4, c5, scanHex, a6, c6, hexVal_space,
    hsum, LONG_MAX, LONG_MIN]
  omega

theorem strtol_space_token (u : Bool) (b : Byte) (r : CStr) :
    strtol (' ' :: (hexToken u b ++ ' ' :: r)) = ((b.val : Int), some (' ' :: r)) := by
  have hhi : b.val / 16 < 16 := by omega
  have hlo : b.val % 16 < 16 := by omega
  obtain ⟨a1, a2, a3, _, _, a6⟩ := hexDigit_facts u ⟨b.val / 16, hhi⟩
  obtain ⟨_, _, _, c4, c5, c6⟩ := hexDigit_facts u ⟨b.val % 16, hlo⟩
  simp only at a1 a2 a3 a6 c4 c5 c6
  have hsum : b.val / 16 * 16 + b.val % 16 = b.val := by omega
  have hb := b.isLt
  have hsp : isspace ' ' = true := by decide
  simp [strtol, hexToken, List.dropWhile, a1, a2, a3, c4, c5, scanHex, a6, c6, hexVal_space,
    hsum, LONG_MAX, LONG_MIN, hsp]
  omega


theorem encode_length (bs : List (Bool × Byte)) :
    (encode bs).length = 3 * bs.length + 1 := by
  induction bs with
  | nil => rfl
  | cons b bs ih => simp [encode, hexToken, ih]; omega

theorem decodeLoop_encode (bs : List (Bool × Byte)) :
    ∀ (i : Nat) (d : Frame) (p : CStr), (p = encode bs ∨ p = ' ' :: encode bs) →
      i + bs.length = 14 →
      decodeLoop bs.length p i d = (writeBytes d i (bs.map Prod.snd), 14) := by
  induction bs with
  | nil =>
    intro i d p _ hi
    simp at hi
    simp [decodeLoop, writeBytes, hi]
  | cons b bs ih =>
    intro i d p hp hi
    have hi14 : i < 14 := by simp at hi; omega
    have hne : p ≠ [] := by
      rcases hp with h | h <;> simp [h, encode, hexToken]
    have hst : strtol p = ((b.2.val : Int), some (' ' :: encode bs)) := by
      rcases hp with h | h
      · rw [h, encode, strtol_token]
      · rw [h, encode, strtol_space_token]
    simp only [List.length_cons, decodeLoop, hne, hi14, ne_eq, not_false_eq_true, and_self,
      if_true, hst, byteOfInt_val, writeBytes, List.map_cons]
    exact ih (i + 1) (setByte d i b.2) (' ' :: encode bs) (Or.inr rfl) (by simp at hi; omega)

theorem writeBytes_apply (bs : List Byte) :
    ∀ (i : Nat) (d : Frame) (j : Fin 14),
      writeBytes d i bs j = if h : i ≤ j.val ∧ j.val - i < bs.length
        then bs.get ⟨j.val - i, h.2⟩ else d j := by
  induction bs with
  | nil => intro i d j; simp [writeBytes]
  | cons b bs ih =>
    intro i d j
    rw [writeBytes, ih]
    by_cases hj : j.val = i
    · have h1 : ¬ (i + 1 ≤ j.val ∧ j.val - (i + 1) < bs.length) := by omega
      have h2 : i ≤ j.val ∧ j.val - i < (b :: bs).length := by simp; omega
      rw [dif_neg h1, dif_pos h2]
      simp [setByte, hj]
    · by_cases h1 : i + 1 ≤ j.val ∧ j.val - (i + 1) < bs.length
      · have h2 : i ≤ j.val ∧ j.val - i < (b :: bs).length := by simp; omega
        rw [dif_pos h1, dif_pos h2]
        have : j.val - i = (j.val - (i + 1)) + 1 := by omega
        simp [this]
      · have h2 : ¬ (i ≤ j.val ∧ j.val - i < (b :: bs).length) := by simp; omega
        rw [dif_neg h1, dif_neg h2]
        simp [setByte, hj]

theorem hexDecode_payload (upper : Fin 14 → Bool) (d0 b : Frame) :
    hexDecode d0 (payload upper b) = (b, 14) := by
  have hlen : (List.ofFn fun i => (upper i, b i)).length = 14 := List.length_ofFn _
  have hmap : (List.ofFn fun i => (upper i, b i)).map Prod.snd = List.ofFn b := by
    rw [List.map_ofFn]
    rfl
  have h := decodeLoop_encode (List.ofFn fun i => (upper i, b i)) 0 d0 (payload upper b)
    (Or.inl rfl) (by omega)
  rw [hlen, hmap] at h
  rw [hexDecode, h]
  congr 1
  funext j
  rw [writeBytes_apply]
  have hj : 0 ≤ j.val ∧ j.val - 0 < (List.ofFn b).length := by
    rw [List.length_ofFn]; exact ⟨Nat.zero_le _, by have := j.isLt; omega⟩
  rw [dif_pos hj]
  simp only [List.get_eq_getElem, Nat.sub_zero]
  rw [List.getElem_ofFn]

/-! ## `strstr` -/

theorem strstr_eq_none (m : CStr) : ∀ l : CStr, strstr l m = none ↔ ¬ m <:+: l := by
  intro l
  induction l with
  | nil => simp [strstr]
  | cons c t ih =>
    rw [strstr, List.infix_cons_iff]
    by_cases hp : m.isPrefixOf (c :: t) = true
    · have hp1 : m <+: c :: t := List.isPrefixOf_iff_prefix.mp hp
      simp [hp, hp1]
    · have hp1 : ¬ m <+: c :: t := fun h => hp (List.isPrefixOf_iff_prefix.mpr h)
      simp [hp, hp1, ih]

theorem strstr_first (m : CStr) : ∀ (pre post line : CStr), FollowsFirst m line pre post →
    strstr line m = some (m ++ post) := by
  intro pre
  induction pre with
  | nil =>
    intro post line h
    obtain ⟨hl, _⟩ := h
    simp only [List.nil_append] at hl
    subst hl
    cases hml : m ++ post with
    | nil =>
      have hm : m = [] := (List.append_eq_nil.mp hml).1
      simp [strstr, hm]
    | cons c t =>
      have hp : m.isPrefixOf (c :: t) = true := by
        rw [← hml]; exact List.isPrefixOf_iff_prefix.mpr (List.prefix_append m post)
      simp [strstr, hp]
  | cons a pre ih =>
    intro post line h
    obtain ⟨hl, hmin⟩ := h
    subst hl
    have hnp : ¬ m.isPrefixOf (a :: (pre ++ m ++ post)) = true := by
      intro hp
      obtain ⟨s, hs⟩ := List.isPrefixOf_iff_prefix.mp hp
      have := hmin [] s (by rw [List.nil_append, hs]; rfl)
      simp at this
    have hrec : FollowsFirst m (pre ++ m ++ post) pre post := by
      refine ⟨rfl, ?_⟩
      intro pre1 post1 h1
      have := hmin (a :: pre1) post1 (by simp [h1])
      simpa using this
    have hstep : strstr (a :: (pre ++ m ++ post)) m = strstr (pre ++ m ++ post) m := by
      rw [strstr, if_neg hnp]
    have hcons : a :: pre ++ m ++ post = a :: (pre ++ m ++ post) := rfl
    rw [hcons, hstep]
    exact ih post _ hrec

theorem processLine_of_first (d0 : Frame) (line pre post : CStr)
    (h : FollowsFirst marker line pre post) :
    processLine d0 line =
      if post.length ≠ 43 then Outcome.waiting
      else Outcome.display (display (String.mk line) (hexDecode d0 post).1) := by
  have hm : (marker ++ post).drop 10 = post := by
    simp [marker]
  simp only [processLine, strstr_first marker pre post line h, hm]

/-! ## Field-by-field behaviour of the stages -/

theorem polarity_fields (d : Frame) (r : Reading) :
    (polarity d r).dps = r.dps ∧ (polarity d r).mmode = r.mmode ∧
    (polarity d r).minmax = r.minmax ∧ Reading.uprefix (polarity d r) = r.uprefix ∧
    (polarity d r).units = r.units := by
  unfold polarity
  split <;> simp

theorem unitsStage_fields (d : Frame) (r : Reading) :
    (unitsStage d r).mmode = r.mmode ∧ (unitsStage d r).minmax = r.minmax ∧
    Reading.uprefix (unitsStage d r) = r.uprefix := by
  unfold unitsStage
  split <;> simp

theorem unitsStage_v (d : Frame) (r : Reading) :
    (unitsStage d r).v = if (d 10).val = 32 then r.v.div10 1 else r.v := by
  unfold unitsStage
  split <;> simp_all

theorem unitsStage_dps (d : Frame) (r : Reading) :
    (unitsStage d r).dps = if (d 10).val = 32 then (r.dps + 1) % 256 else r.dps := by
  unfold unitsStage
  split <;> simp_all

theorem unitsStage_units_congr (d e : Frame) (r s : Reading) (h : d 10 = e 10) :
    (unitsStage d r).units = (unitsStage e s).units := by
  unfold unitsStage
  rw [h]
  generalize (e 10).val = n
  split <;> rfl

theorem prefixStage_fields (d : Frame) (r : Reading) :
    (prefixStage d r).minmax = r.minmax ∧ (prefixStage d r).units = r.units := by
  unfold prefixStage
  split <;> (try split) <;> simp

theorem prefixStage_mmode (d : Frame) (r : Reading) :
    (prefixStage d r).mmode = if (d 9).val = 4 then "Diode" else r.mmode := by
  unfold prefixStage
  split <;> (try split) <;> simp_all



theorem prefixStage_v (d : Frame) (r : Reading) :
    (prefixStage d r).v = if prefixRescales d then r.v.div10 1 else r.v := by
  unfold prefixStage prefixRescales
  split <;> (try split) <;> simp_all

theorem prefixStage_dps (d : Frame) (r : Reading) :
    (prefixStage d r).dps = if prefixRescales d then (r.dps + 1) % 256 else r.dps := by
  unfold prefixStage prefixRescales
  split <;> (try split) <;> simp_all

theorem prefixStage_uprefix_congr (d e : Frame) (r s : Reading) (h9 : d 9 = e 9)
    (h10 : d 10 = e 10) : Reading.uprefix (prefixStage d r) = Reading.uprefix (prefixStage e s) := by
  unfold prefixStage
  rw [h9, h10]
  generalize (e 9).val = n
  split <;> (try split) <;> rfl

theorem minmaxStage_fields (d : Frame) (r : Reading) :
    (minmaxStage d r).v = r.v ∧ (minmaxStage d r).dps = r.dps ∧
    (minmaxStage d r).mmode = r.mmode := by
  unfold minmaxStage
  split <;> simp

theorem minmaxStage_minmax_congr (d e : Frame) (r s : Reading) (h : d 8 = e 8) :
    (minmaxStage d r).minmax = (minmaxStage e s).minmax := by
  unfold minmaxStage
  rw [h]
  generalize (e 8).val = n
  split <;> rfl

theorem modeStage_mmode_congr (d e : Frame) (r s : Reading) (h : d 7 = e 7) :
    (modeStage d r).mmode = (modeStage e s).mmode := by
  unfold modeStage
  rw [h]
  generalize (e 7).val = n
  split <;> (try split) <;> (try split) <;> rfl

theorem modeStage_v (d : Frame) (r : Reading) :
    (modeStage d r).v = if (d 7).val = 49 ∧ (d 6).val = 50 then r.v.mul10 else r.v := by
  unfold modeStage
  split <;> (try split) <;> simp_all

theorem modeStage_dps (d : Frame) (r : Reading) :
    (modeStage d r).dps =
      if (d 7).val = 49 ∧ (d 6).val = 50 then (r.dps + 255) % 256 else r.dps := by
  unfold modeStage
  split <;> (try split) <;> simp_all

theorem selectDps_congr (d e : Frame) (h1 : d 1 = e 1) (h2 : d 2 = e 2) (h3 : d 3 = e 3)
    (h4 : d 4 = e 4) (h6 : d 6 = e 6) : selectDps d = selectDps e := by
  unfold selectDps magnitude
  rw [h1, h2, h3, h4, h6]


theorem preUnit_congr (d e : Frame) (h1 : d 1 = e 1) (h2 : d 2 = e 2) (h3 : d 3 = e 3)
    (h4 : d 4 = e 4) (h6 : d 6 = e 6) (h7 : d 7 = e 7) (h8 : d 8 = e 8) :
    minmaxStage d (modeStage d (selectDps d)) = minmaxStage e (modeStage e (selectDps e)) := by
  rw [selectDps_congr d e h1 h2 h3 h4 h6]
  unfold minmaxStage modeStage
  rw [h6, h7, h8]

theorem unsigned_congr (d e : Frame) (h : ∀ i : Fin 14, i ≠ 0 → d i = e i) :
    unsigned d = unsigned e := by
  unfold unsigned
  rw [preUnit_congr d e (h 1 (by decide)) (h 2 (by decide)) (h 3 (by decide)) (h 4 (by decide))
    (h 6 (by decide)) (h 7 (by decide)) (h 8 (by decide))]
  unfold unitsStage prefixStage
  rw [h 9 (by decide), h 10 (by decide)]

theorem selectDps_dps (d : Frame) :
    (selectDps d).dps =
      if (d 6).val = 49 then 3 else if (d 6).val = 50 then 2
      else if (d 6).val = 51 then 1 else 0 := by
  unfold selectDps
  split <;> simp_all

theorem selectDps_v (d : Frame) :
    (selectDps d).v = (Dbl.ofInt (magnitude d)).div10 (selectDps d).dps := by
  unfold selectDps
  split <;> rfl

theorem preUnit_dps_le (d : Frame) : (minmaxStage d (modeStage d (selectDps d))).dps ≤ 3 := by
  rw [(minmaxStage_fields d _).2.1, modeStage_dps, selectDps_dps]
  split_ifs <;> omega

theorem unsigned_dps_le (d : Frame) : (unsigned d).dps ≤ 4 := by
  have h := preUnit_dps_le d
  unfold unsigned
  rw [unitsStage_dps, prefixStage_dps]
  unfold prefixRescales
  split_ifs <;> omega

theorem toRat_negate (x : Dbl) : x.negate.toRat = -x.toRat := by
  unfold Dbl.negate Dbl.toRat
  cases x.neg <;> simp <;> ring

theorem toRat_div10 (x : Dbl) : (x.div10 1).toRat = x.toRat / 10 := by
  unfold Dbl.div10 Dbl.toRat
  simp only [pow_succ]
  field_simp


/-! ## The claims -/

/-- C1 (counterexample): the frame of the end-to-end example, bytes 11..13
set to 0, is not displayed as `"+123uV\nAuto "`. -/
theorem example_frame_not_plus123 : display "" exampleFrame ≠ "+123uV\nAuto " := by
  decide

/-- C1 (amended): every frame whose bytes 0..10 are
`2b 30 31 32 33 30 31 21 00 80 80` is displayed as `"+0.123uV\nAuto "`: byte 6
is `0x31`, which selects three decimals, and the number is zero-padded to
width 6. -/
theorem example_frame_display (cmd : String) (d : Frame)
    (h0 : d 0 = 0x2b) (h1 : d 1 = 0x30) (h2 : d 2 = 0x31) (h3 : d 3 = 0x32)
    (h4 : d 4 = 0x33) (_h5 : d 5 = 0x30) (h6 : d 6 = 0x31) (h7 : d 7 = 0x21)
    (h8 : d 8 = 0x00) (h9 : d 9 = 0x80) (h10 : d 10 = 0x80) :
    display cmd d = "+0.123uV\nAuto " := by
  simp only [display, interpret, polarity, unsigned, unitsStage, prefixStage, minmaxStage,
    modeStage, selectDps, magnitude, format, isOverload, h0, h1, h2, h3, h4, h6, h7, h8, h9, h10]
  rfl

/-- Witness of `example_frame_display` at the example frame with bytes
11..13 set to 0. -/
theorem example_frame_display_witness : display "" exampleFrame = "+0.123uV\nAuto " :=
  example_frame_display "" exampleFrame (by decide) (by decide) (by decide) (by decide)
    (by decide) (by decide) (by decide) (by decide) (by decide) (by decide) (by decide)

/-- C2: a frame whose first five bytes are the overload sentinel is displayed
as `"O.L " ++ units ++ "\n" ++ mmode`, and the display of two such frames is
the same as soon as they agree on bytes 7, 9 and 10. -/
theorem overload_display (cmd : String) (d : Frame)
    (h0 : d 0 = 0x2b) (h1 : d 1 = 0x3f) (h2 : d 2 = 0x30) (h3 : d 3 = 0x3a) (h4 : d 4 = 0x3f) :
    display cmd d = "O.L " ++ (interpret d).units ++ "\n" ++ (interpret d).mmode ∧
    ∀ (cmd1 : String) (e : Frame), e 0 = 0x2b → e 1 = 0x3f → e 2 = 0x30 → e 3 = 0x3a →
      e 4 = 0x3f → e 7 = d 7 → e 9 = d 9 → e 10 = d 10 → display cmd1 e = display cmd d := by
  have hov : ∀ (c : String) (f : Frame), f 0 = 0x2b → f 1 = 0x3f → f 2 = 0x30 → f 3 = 0x3a →
      f 4 = 0x3f →
      display c f = "O.L " ++ (interpret f).units ++ "\n" ++ (interpret f).mmode := by
    intro c f g0 g1 g2 g3 g4
    have ho : isOverload f = true := by
      simp only [isOverload, g0, g1, g2, g3, g4]
      decide
    simp only [display, format, ho, if_true]
  refine ⟨hov cmd d h0 h1 h2 h3 h4, ?_⟩
  intro cmd1 e g0 g1 g2 g3 g4 g7 g9 g10
  rw [hov cmd1 e g0 g1 g2 g3 g4, hov cmd d h0 h1 h2 h3 h4]
  have hu : (interpret e).units = (interpret d).units := by
    simp only [interpret, (polarity_fields _ _).2.2.2.2, unsigned]
    exact unitsStage_units_congr e d _ _ g10
  have hm : (interpret e).mmode = (interpret d).mmode := by
    simp only [interpret, (polarity_fields _ _).2.1, unsigned, (unitsStage_fields _ _).1,
      prefixStage_mmode, (minmaxStage_fields _ _).2.2, g9]
    rw [modeStage_mmode_congr e d (selectDps e) (selectDps d) g7]
  rw [hu, hm]

/-- Witness of `overload_display` at the overload frame `overloadFrame`. -/
theorem overload_display_witness :
    display "" overloadFrame = "O.L Ohm\nAuto" ∧
    display "" overloadFrame2 = display "" overloadFrame :=
  ⟨(overload_display "" overloadFrame (by decide) (by decide) (by decide) (by decide)
      (by decide)).1,
   (overload_display "" overloadFrame (by decide) (by decide) (by decide) (by decide)
      (by decide)).2 "" overloadFrame2 (by decide) (by decide) (by decide) (by decide)
      (by decide) (by decide) (by decide) (by decide)⟩


/-- C3 (counterexample): a line with the marker and only 10 hex tokens,
padded to 43 characters, is not rejected: the decode loop counts 14 bytes
(the missing ones read as 0) and the frame is interpreted and displayed. -/
theorem padded_short_frame_is_displayed :
    processLine (Frame.ofList []) paddedLine = Outcome.display "+0.123u'F\nAuto " ∧
    (hexDecode (Frame.ofList []) (paddedLine.drop 36)).2 = 14 := by
  decide

/-- C3 (amended): a line with the marker whose text after the first marker is
not exactly 43 characters long yields the waiting signal; nothing is decoded
or interpreted. -/
theorem short_frame_waiting (d0 : Frame) (line pre post : CStr)
    (h : FollowsFirst marker line pre post) (hlen : post.length ≠ 43) :
    processLine d0 line = Outcome.waiting := by
  rw [processLine_of_first d0 line pre post h, if_pos hlen]

/-- Witness of `short_frame_waiting`: 10 tokens, each followed by one space,
then a newline. -/
theorem short_frame_waiting_witness :
    processLine (Frame.ofList []) shortLine = Outcome.waiting :=
  short_frame_waiting (Frame.ofList []) shortLine []
    "2b 30 31 32 33 30 31 21 00 80 \n".toList ⟨by decide, fun _ _ _ => Nat.zero_le _⟩ (by decide)

/-- C4: a line without the marker is skipped (and only such a line); on a line
with the marker, `post` being the text after its first occurrence, the result
is the waiting signal when the length of `post` is not 43, and the display of
the frame decoded from `post` itself when it is 43. -/
theorem frame_extractor_classification (d0 : Frame) (line : CStr) :
    (processLine d0 line = Outcome.skip ↔ ¬ marker <:+: line) ∧
    (∀ pre post : CStr, FollowsFirst marker line pre post →
      (post.length ≠ 43 → processLine d0 line = Outcome.waiting) ∧
      (post.length = 43 → processLine d0 line =
        Outcome.display (display (String.mk line) (hexDecode d0 post).1))) := by
  constructor
  · rw [← strstr_eq_none]
    unfold processLine
    cases strstr line marker with
    | none => simp
    | some p =>
      simp only [reduceCtorEq, iff_false]
      split_ifs <;> simp
  · intro pre post h
    rw [processLine_of_first d0 line pre post h]
    constructor
    · intro hlen; rw [if_pos hlen]
    · intro hlen; rw [if_neg (by simpa using hlen)]

/-- Witness of `frame_extractor_classification`: a line without marker, and a
complete line. -/
theorem frame_extractor_classification_witness :
    processLine (Frame.ofList []) "Characteristic value\n".toList = Outcome.skip ∧
    processLine (Frame.ofList []) fullLine =
      Outcome.display (display (String.mk fullLine)
        (hexDecode (Frame.ofList []) "2b 30 31 32 33 30 31 21 00 80 80 0a 0b 0c \n".toList).1) :=
  ⟨(frame_extractor_classification (Frame.ofList []) "Characteristic value\n".toList).1.mpr
      (by decide),
   ((frame_extractor_classification (Frame.ofList []) fullLine).2 []
      "2b 30 31 32 33 30 31 21 00 80 80 0a 0b 0c \n".toList
      ⟨by decide, fun _ _ _ => Nat.zero_le _⟩).2 (by decide)⟩

/-- C5: the payload of a frame `b` (its 14 two-digit hexadecimal tokens in
order, in either letter case, each followed by one space, then a newline) has
43 characters and is decoded into exactly 14 values, `d[i] = b i` for every
`i`, each below 256, whatever the array held before. -/
theorem hex_round_trip (upper : Fin 14 → Bool) (d0 b : Frame) :
    (payload upper b).length = 43 ∧ (hexDecode d0 (payload upper b)).2 = 14 ∧
    ∀ i : Fin 14, (hexDecode d0 (payload upper b)).1 i = b i ∧
      ((hexDecode d0 (payload upper b)).1 i).val < 256 := by
  have hlen : (List.ofFn fun i => (upper i, b i)).length = 14 := List.length_ofFn _
  refine ⟨by rw [payload, encode_length, hlen], by rw [hexDecode_payload], ?_⟩
  intro i
  rw [hexDecode_payload]
  exact ⟨rfl, (b i).isLt⟩

/-- C6: for every frame the decimal-place count after the final clamp is
within [0,4], and it is the count the non-overload display is rendered with
(width 5 for 0 places, width 6 otherwise). -/
theorem decimal_places_in_range (cmd : String) (d : Frame) :
    0 ≤ clampDps (interpret d).dps ∧ clampDps (interpret d).dps ≤ 4 ∧
    (isOverload d = false →
      display cmd d =
        numericLine (if clampDps (interpret d).dps = 0 then 5 else 6)
          (clampDps (interpret d).dps) (interpret d)) := by
  have hle : clampDps (interpret d).dps ≤ 4 := by
    simp only [clampDps]
    split_ifs <;> omega
  refine ⟨Nat.zero_le _, hle, ?_⟩
  intro hno
  simp only [display, format, hno]
  generalize clampDps (interpret d).dps = k at hle
  interval_cases k <;> rfl

/-- C7: two frames that differ at index 0 only, the first with `'-'` there and
the second with any other byte, have opposite values (the first is the
negation of its own fully rescaled value) and the same decimal places and
labels. -/
theorem sign_negates_last (d1 d2 : Frame) (hneg : d1 0 = 0x2d) (hpos : d2 0 ≠ 0x2d)
    (hrest : ∀ i : Fin 14, i ≠ 0 → d1 i = d2 i) :
    (interpret d1).v = (interpret d2).v.negate ∧
    (interpret d1).v.toRat = -(interpret d2).v.toRat ∧
    (interpret d1).v = (unsigned d1).v.negate ∧
    (interpret d2).v = (unsigned d2).v ∧
    (interpret d1).dps = (interpret d2).dps ∧
    clampDps (interpret d1).dps = clampDps (interpret d2).dps ∧
    Reading.uprefix (interpret d1) = Reading.uprefix (interpret d2) ∧
    (interpret d1).units = (interpret d2).units ∧
    (interpret d1).mmode = (interpret d2).mmode ∧
    (interpret d1).minmax = (interpret d2).minmax := by
  have hu : unsigned d1 = unsigned d2 := unsigned_congr d1 d2 hrest
  have h1 : interpret d1 = { unsigned d1 with v := (unsigned d1).v.negate } := by
    have h45 : (d1 0).val = 45 := by rw [hneg]; rfl
    simp [interpret, polarity, h45]
  have h2 : interpret d2 = unsigned d2 := by
    have hne : (d2 0).val ≠ 45 := fun h => hpos (Fin.ext h)
    simp [interpret, polarity, hne]
  rw [h1, h2, hu]
  simp [toRat_negate]

/-- Witness of `sign_negates_last`: the example frame with `'-'` against the
example frame itself. -/
theorem sign_negates_last_witness :
    (interpret (setByte exampleFrame 0 0x2d)).v = (interpret exampleFrame).v.negate :=
  (sign_negates_last (setByte exampleFrame 0 0x2d) exampleFrame (by decide) (by decide)
    (by decide)).1

/-- C8: when bytes 1..4 are ASCII digits the magnitude is the number they
spell, between 0 and 9999; with byte 6 equal to 48 the value after the
decimal-place selector is that integer, with 0 decimal places. -/
theorem magnitude_of_digits (d : Frame)
    (h1 : 48 ≤ (d 1).val ∧ (d 1).val ≤ 57) (h2 : 48 ≤ (d 2).val ∧ (d 2).val ≤ 57)
    (h3 : 48 ≤ (d 3).val ∧ (d 3).val ≤ 57) (h4 : 48 ≤ (d 4).val ∧ (d 4).val ≤ 57) :
    magnitude d = (((d 1).val - 48) * 1000 + ((d 2).val - 48) * 100
      + ((d 3).val - 48) * 10 + ((d 4).val - 48) : Nat) ∧
    0 ≤ magnitude d ∧ magnitude d ≤ 9999 ∧
    ((d 6).val = 48 →
      (selectDps d).v = Dbl.ofInt (magnitude d) ∧ (selectDps d).dps = 0 ∧
      (selectDps d).v.toRat = (magnitude d : ℚ)) := by
  have hm : magnitude d = (((d 1).val - 48) * 1000 + ((d 2).val - 48) * 100
      + ((d 3).val - 48) * 10 + ((d 4).val - 48) : Nat) := by
    unfold magnitude
    omega
  have hge : 0 ≤ magnitude d := by rw [hm]; exact Int.natCast_nonneg _
  refine ⟨hm, hge, by rw [hm]; omega, ?_⟩
  intro h6
  have hs : selectDps d = ⟨Dbl.ofInt (magnitude d), 0, "", "", "", ""⟩ := by
    simp [selectDps, h6]
  rw [hs]
  refine ⟨rfl, rfl, ?_⟩
  have hlt : ¬ magnitude d < 0 := by omega
  simp only [Dbl.toRat, Dbl.ofInt, hlt, decide_False, Bool.false_eq_true, if_false, pow_zero,
    one_mul, div_one]
  rw [Nat.cast_natAbs, abs_of_nonneg hge]

/-- Witness of `magnitude_of_digits`: digits `'0','1','2','3'` with byte 6
equal to 48 give exactly 123 with 0 decimal places. -/
theorem magnitude_of_digits_witness :
    magnitude digitsFrame = 123 ∧ (selectDps digitsFrame).v = Dbl.ofInt 123 ∧
    (selectDps digitsFrame).dps = 0 :=
  have h := magnitude_of_digits digitsFrame (by decide) (by decide) (by decide) (by decide)
  ⟨h.1, (h.2.2.2 (by decide)).1, (h.2.2.2 (by decide)).2.1⟩


/-- C9 (counterexample): with byte 9 equal to 0, setting byte 10 to 32 does
not give one decimal place more and a tenth of the value than setting it to
4, a code whose unit branch does not rescale: the prefix switch rescales
for 4. -/
theorem ohm_rescale_fails_for_nano :
    ¬ ((interpret (setByte digitsFrame 10 32)).dps
          = (interpret (setByte digitsFrame 10 4)).dps + 1 ∧
        (interpret (setByte digitsFrame 10 32)).v.toRat
          = (interpret (setByte digitsFrame 10 4)).v.toRat / 10) := by
  intro h
  exact absurd h.1 (by decide)

/-- C9 (amended): for every frame `F` and every unit code `c` other than 32
under which the prefix switch does not rescale either (not byte 9 = 0 with
`c = 4`, not byte 9 = 64 with `c` in {64, 128}), setting byte 10 to 32 gives
exactly one decimal place more (before and after the clamp) and exactly one
tenth of the value obtained by setting byte 10 to `c`. -/
theorem ohm_rescale (F : Frame) (c : Byte) (hc : c ≠ 32)
    (hn : ¬ ((F 9).val = 0 ∧ c.val = 4))
    (hm : ¬ ((F 9).val = 64 ∧ (c.val = 128 ∨ c.val = 64))) :
    (interpret (setByte F 10 32)).dps = (interpret (setByte F 10 c)).dps + 1 ∧
    clampDps (interpret (setByte F 10 32)).dps
      = clampDps (interpret (setByte F 10 c)).dps + 1 ∧
    (interpret (setByte F 10 32)).v = (interpret (setByte F 10 c)).v.div10 1 ∧
    (interpret (setByte F 10 32)).v.toRat = (interpret (setByte F 10 c)).v.toRat / 10 := by
  have hA : ∀ (x : Byte) (i : Fin 14), i ≠ 10 → setByte F 10 x i = F i := by
    intro x i hi
    have : i.val ≠ 10 := fun h => hi (Fin.ext h)
    simp [setByte, this]
  have hA10 : ∀ x : Byte, setByte F 10 x 10 = x := by
    intro x
    exact if_pos rfl
  have hE : ∀ i : Fin 14, i ≠ 10 → setByte F 10 32 i = setByte F 10 c i := by
    intro i hi
    rw [hA _ i hi, hA _ i hi]
  have hpre : minmaxStage (setByte F 10 32) (modeStage (setByte F 10 32)
        (selectDps (setByte F 10 32)))
      = minmaxStage (setByte F 10 c) (modeStage (setByte F 10 c) (selectDps (setByte F 10 c))) := by
    exact preUnit_congr _ _ (hE 1 (by decide)) (hE 2 (by decide)) (hE 3 (by decide))
      (hE 4 (by decide)) (hE 6 (by decide)) (hE 7 (by decide)) (hE 8 (by decide))
  have hle := preUnit_dps_le (setByte F 10 c)
  obtain ⟨X, hX⟩ : ∃ X, minmaxStage (setByte F 10 c) (modeStage (setByte F 10 c)
      (selectDps (setByte F 10 c))) = X := ⟨_, rfl⟩
  rw [hX] at hpre hle
  have h32 : (32 : Byte).val = 32 := rfl
  have hcv : c.val ≠ 32 := fun h => hc (Fin.ext h)
  have h9a : (setByte F 10 32 9).val = (F 9).val := by rw [hA _ 9 (by decide)]
  have h9c : (setByte F 10 c 9).val = (F 9).val := by rw [hA _ 9 (by decide)]
  have h0 : (setByte F 10 32 0).val = (setByte F 10 c 0).val := by
    rw [hA _ 0 (by decide), hA _ 0 (by decide)]
  have hpa : ¬ prefixRescales (setByte F 10 32) := by
    unfold prefixRescales
    rw [hA10, h32]
    omega
  have hpc : ¬ prefixRescales (setByte F 10 c) := by
    unfold prefixRescales
    rw [hA10, h9c]
    tauto
  have hva : (unsigned (setByte F 10 32)).v = X.v.div10 1 := by
    simp [unsigned, hpre, unitsStage_v, prefixStage_v, hpa, hA10, h32]
  have hvc : (unsigned (setByte F 10 c)).v = X.v := by
    simp [unsigned, hX, unitsStage_v, prefixStage_v, hpc, hA10, hcv]
  have hda : (unsigned (setByte F 10 32)).dps = X.dps + 1 := by
    simp only [unsigned, hpre, unitsStage_dps, prefixStage_dps, hpa, hA10, h32, if_true,
      if_false]
    omega
  have hdc : (unsigned (setByte F 10 c)).dps = X.dps := by
    simp [unsigned, hX, unitsStage_dps, prefixStage_dps, hpc, hA10, hcv]
  have hv : (interpret (setByte F 10 32)).v = (interpret (setByte F 10 c)).v.div10 1 := by
    simp only [interpret, polarity, h0]
    split_ifs <;> simp [hva, hvc, Dbl.negate, Dbl.div10]
  have hd : (interpret (setByte F 10 32)).dps = (interpret (setByte F 10 c)).dps + 1 := by
    rw [interpret, interpret, (polarity_fields _ _).1, (polarity_fields _ _).1, hda, hdc]
  refine ⟨hd, ?_, hv, by rw [hv, toRat_div10]⟩
  rw [hd]
  rw [interpret, (polarity_fields _ _).1, hdc]
  simp only [clampDps]
  split_ifs <;> omega

/-- Witness of `ohm_rescale`: byte 9 = 0, unit code 128 against unit code 32. -/
theorem ohm_rescale_witness :
    (interpret (setByte digitsFrame 10 32)).dps
      = (interpret (setByte digitsFrame 10 128)).dps + 1 :=
  (ohm_rescale digitsFrame 128 (by decide) (by decide) (by decide)).1

/-- C10 (the code at the failing input): with byte 10 equal to 0 the unit
symbol left by the units switch is `"'F"`, not `"%"`: `case 0` has no `break`. -/
theorem units_code_zero_falls_through (d : Frame) (h : d 10 = 0) :
    (interpret d).units = "'F" ∧ (interpret d).units ≠ "%" := by
  have hu : (interpret d).units = "'F" := by
    simp [interpret, (polarity_fields _ _).2.2.2.2, unsigned, unitsStage, h]
  rw [hu]
  exact ⟨rfl, by decide⟩

/-- Witness of `units_code_zero_falls_through` at a frame with unit code 0. -/
theorem units_code_zero_falls_through_witness :
    (interpret (setByte exampleFrame 10 0)).units = "'F" :=
  (units_code_zero_falls_through (setByte exampleFrame 10 0) (by decide)).1


/-! ## Labels and value of the interpreted frame -/

theorem interpret_mmode (d : Frame) :
    (interpret d).mmode =
      if (d 9).val = 4 then "Diode" else (modeStage d (selectDps d)).mmode := by
  simp only [interpret, (polarity_fields _ _).2.1, unsigned, (unitsStage_fields _ _).1,
    prefixStage_mmode, (minmaxStage_fields _ _).2.2]

theorem interpret_units (d : Frame) :
    (interpret d).units = (unitsStage d (selectDps d)).units := by
  simp only [interpret, (polarity_fields _ _).2.2.2.2, unsigned]
  exact unitsStage_units_congr d d _ _ rfl

theorem interpret_uprefix_eq (d : Frame) :
    Reading.uprefix (interpret d) = Reading.uprefix (prefixStage d (selectDps d)) := by
  simp only [interpret, (polarity_fields _ _).2.2.2.1, unsigned, (unitsStage_fields _ _).2.2]
  exact prefixStage_uprefix_congr d d _ _ rfl rfl

theorem interpret_minmax (d : Frame) :
    (interpret d).minmax = (minmaxStage d (selectDps d)).minmax := by
  simp only [interpret, (polarity_fields _ _).2.2.1, unsigned, (unitsStage_fields _ _).2.1,
    (prefixStage_fields _ _).1]
  exact minmaxStage_minmax_congr d d _ _ rfl

theorem interpret_dps (d : Frame) : (interpret d).dps = (unsigned d).dps := by
  rw [interpret, (polarity_fields _ _).1]

theorem div10_div10 (x : Dbl) (a b : Nat) : (x.div10 a).div10 b = x.div10 (a + b) := by
  simp [Dbl.div10, Nat.add_assoc]

theorem mul10_div10_succ (x : Dbl) (a : Nat) : (x.div10 (a + 1)).mul10 = x.div10 a := by
  simp [Dbl.div10, Dbl.mul10]

theorem div10_zero (x : Dbl) : x.div10 0 = x := rfl

/-- Before the polarity statement the value is the magnitude divided by
`10 ^ dps`: every division by 10 has been counted in `dps`. -/
theorem unsigned_v (d : Frame) :
    (unsigned d).v = (Dbl.ofInt (magnitude d)).div10 (unsigned d).dps := by
  have hs := selectDps_v d
  have hd := selectDps_dps d
  simp only [unsigned, unitsStage_v, unitsStage_dps, prefixStage_v, prefixStage_dps,
    (minmaxStage_fields _ _).1, (minmaxStage_fields _ _).2.1, modeStage_v, modeStage_dps, hs]
  unfold prefixRescales
  rw [hd]
  split_ifs <;> simp_all [div10_div10, mul10_div10_succ, div10_zero]


theorem toRat_ofInt (m : Int) : (Dbl.ofInt m).toRat = (m : ℚ) := by
  unfold Dbl.ofInt Dbl.toRat
  by_cases h : m < 0
  · simp only [h, decide_True, if_true, pow_zero, div_one, Nat.cast_natAbs, abs_of_neg h]
    push_cast
    ring
  · have h0 : 0 ≤ m := not_lt.mp h
    simp only [h, decide_False, Bool.false_eq_true, if_false, pow_zero, div_one,
      Nat.cast_natAbs, abs_of_nonneg h0, one_mul]

theorem toRat_div10_pow (x : Dbl) (k : Nat) : (x.div10 k).toRat = x.toRat / 10 ^ k := by
  unfold Dbl.div10 Dbl.toRat
  simp only [pow_add]
  field_simp

theorem minmaxStage_frame_congr (d e : Frame) (r : Reading) (h8 : d 8 = e 8) :
    minmaxStage d r = minmaxStage e r := by
  unfold minmaxStage
  rw [h8]

theorem prefixStage_frame_congr (d e : Frame) (r : Reading) (h9 : d 9 = e 9)
    (h10 : d 10 = e 10) : prefixStage d r = prefixStage e r := by
  unfold prefixStage
  rw [h9, h10]

theorem unitsStage_frame_congr (d e : Frame) (r : Reading) (h10 : d 10 = e 10) :
    unitsStage d r = unitsStage e r := by
  unfold unitsStage
  rw [h10]

theorem polarity_frame_congr (d e : Frame) (r : Reading) (h0 : d 0 = e 0) :
    polarity d r = polarity e r := by
  unfold polarity
  rw [h0]

theorem interpret_dps_le (d : Frame) : (interpret d).dps ≤ 4 := by
  rw [interpret_dps]
  exact unsigned_dps_le d

theorem clampDps_of_le (n : Nat) (h : n ≤ 4) : clampDps n = n := by
  simp only [clampDps]
  split_ifs <;> omega

theorem interpret_v (d : Frame) :
    (interpret d).v =
      if (d 0).val = 45 then ((Dbl.ofInt (magnitude d)).div10 (interpret d).dps).negate
      else (Dbl.ofInt (magnitude d)).div10 (interpret d).dps := by
  rw [interpret_dps]
  unfold interpret polarity
  split_ifs <;> simp [unsigned_v d]

theorem display_of_not_overload (cmd : String) (d : Frame) (h : isOverload d = false) :
    display cmd d = numericField d ++ Reading.uprefix (interpret d) ++ (interpret d).units
      ++ "\n" ++ (interpret d).mmode ++ " " ++ (interpret d).minmax := by
  have hle : clampDps (interpret d).dps ≤ 4 := by
    rw [clampDps_of_le _ (interpret_dps_le d)]
    exact interpret_dps_le d
  simp only [display, format, h, numericField, numericLine]
  generalize clampDps (interpret d).dps = k at hle
  interval_cases k <;> rfl

/-! ## The `%f` conversion on exact decimals -/

theorem digitChar_isDigit : ∀ m : Fin 10, (Nat.digitChar m.val).isDigit = true := by decide

theorem toDigitsCore_digits (f : Nat) : ∀ (n : Nat) (ds : List Char),
    (∀ c ∈ ds, c.isDigit = true) → ∀ c ∈ Nat.toDigitsCore 10 f n ds, c.isDigit = true := by
  induction f with
  | zero => intro n ds h; simpa [Nat.toDigitsCore] using h
  | succ f ih =>
    intro n ds h
    have hd : (Nat.digitChar (n % 10)).isDigit = true :=
      digitChar_isDigit ⟨n % 10, Nat.mod_lt _ (by decide)⟩
    have hcons : ∀ c ∈ Nat.digitChar (n % 10) :: ds, c.isDigit = true := by
      intro c hc
      rcases List.mem_cons.mp hc with h1 | h1
      · rw [h1]; exact hd
      · exact h c h1
    simp only [Nat.toDigitsCore]
    split_ifs
    · exact hcons
    · exact ih _ _ hcons

theorem repr_digits (n : Nat) : ∀ c ∈ (toString n).data, c.isDigit = true := by
  show ∀ c ∈ (Nat.repr n).data, c.isDigit = true
  simp only [Nat.repr, Nat.toDigits, List.asString]
  exact toDigitsCore_digits _ _ _ (by simp)

theorem repr_length_pos (n : Nat) : 1 ≤ (toString n).length := by
  show 1 ≤ (Nat.repr n).length
  simp only [Nat.repr, Nat.toDigits, List.asString, String.length, Nat.toDigitsCore]
  split_ifs
  · simp
  · rw [Nat.toDigitsCore_lens_eq]
    omega

theorem repr_length_le (n e : Nat) (he : 0 < e) (h : n < 10 ^ e) : (toString n).length ≤ e :=
  Nat.repr_length n e he h

theorem zeroPad_data (n : Nat) (s : String) :
    (zeroPad n s).data = List.replicate (n - s.length) '0' ++ s.data := by
  simp [zeroPad, String.data_append]

theorem zeroPad_length (n : Nat) (s : String) :
    (zeroPad n s).length = (n - s.length) + s.length := by
  unfold zeroPad
  rw [String.length_append]
  show (List.replicate (n - s.length) '0').length + s.length = _
  rw [List.length_replicate]

/-- When the decimal scale of the value is the precision, `%f` prints the
mantissa digit for digit: integer part, point, fraction. -/
theorem printfF_exact (w k : Nat) (x : Dbl) (hs : x.scale = k) :
    printfF w k x = (if x.neg then "-" else "+") ++ zeroPad (w - 1)
      (toString (x.mant / 10 ^ k)
        ++ (if k = 0 then "" else "." ++ zeroPad k (toString (x.mant % 10 ^ k)))) := by
  have hpos : 0 < 10 ^ k := by positivity
  have hq : x.mant * 10 ^ k / 10 ^ k = x.mant := Nat.mul_div_cancel _ hpos
  have hr : x.mant * 10 ^ k % 10 ^ k = 0 := Nat.mul_mod_left _ _
  have hc : ¬ (10 ^ k < 2 * 0 ∨ (2 * 0 = 10 ^ k ∧ x.mant % 2 = 1)) := by omega
  simp only [printfF, hs, hq, hr, hc, if_false]

/-- Shape of the numeric field for a mantissa below 10000 printed with its own
scale `k ≤ 4`: sign, digits, and for `k > 0` a point and `k` digits; 5
characters for `k = 0`, 7 for `k = 4`, 6 otherwise. -/
theorem printfF_shape (k M : Nat) (s : Bool) (hk : k ≤ 4) (hM : M < 10000) :
    ∃ (ip fp : List Char),
      (printfF (if k = 0 then 5 else 6) k ⟨s, M, k⟩).data
        = (if s then '-' else '+') :: (ip ++ (if k = 0 then [] else '.' :: fp)) ∧
      ip ≠ [] ∧ (∀ c ∈ ip, c.isDigit = true) ∧ (∀ c ∈ fp, c.isDigit = true) ∧
      fp.length = k ∧
      (printfF (if k = 0 then 5 else 6) k ⟨s, M, k⟩).length
        = (if k = 0 then 5 else if k = 4 then 7 else 6) := by
  have hpos : 0 < 10 ^ k := by positivity
  have hfl : k ≠ 0 → (toString (M % 10 ^ k)).length ≤ k := fun h0 =>
    repr_length_le _ k (Nat.pos_of_ne_zero h0) (Nat.mod_lt _ hpos)
  have hil := repr_length_pos (M / 10 ^ k)
  have hiu : (toString (M / 10 ^ k)).length + k ≤ 4 ∨ (k = 4 ∧ (toString (M / 10 ^ k)).length = 1) := by
    interval_cases k
    · left; exact repr_length_le _ 4 (by decide) (by omega)
    · left; have := repr_length_le (M / 10 ^ 1) 3 (by decide) (by omega); omega
    · left; have := repr_length_le (M / 10 ^ 2) 2 (by decide) (by omega); omega
    · left; have := repr_length_le (M / 10 ^ 3) 1 (by decide) (by omega); omega
    · right
      have h0 : M / 10 ^ 4 = 0 := Nat.div_eq_of_lt (by omega)
      rw [h0]
      exact ⟨rfl, rfl⟩
  rw [printfF_exact _ k ⟨s, M, k⟩ rfl]
  refine ⟨List.replicate ((if k = 0 then 5 else 6) - 1
      - (toString (M / 10 ^ k)
          ++ (if k = 0 then "" else "." ++ zeroPad k (toString (M % 10 ^ k)))).length) '0'
      ++ (toString (M / 10 ^ k)).data,
    if k = 0 then [] else (zeroPad k (toString (M % 10 ^ k))).data, ?_, ?_, ?_, ?_, ?_, ?_⟩
  · simp only [String.data_append, zeroPad_data]
    cases s <;> by_cases h0 : k = 0 <;> simp [h0, String.data_append, zeroPad_data]
  · intro h
    have hl := congrArg List.length h
    simp only [List.length_append, List.length_nil] at hl
    have : (toString (M / 10 ^ k)).data.length = (toString (M / 10 ^ k)).length := rfl
    omega
  · intro c hc
    rcases List.mem_append.mp hc with h | h
    · rw [(List.mem_replicate.mp h).2]; rfl
    · exact repr_digits _ c h
  · intro c hc
    by_cases h0 : k = 0
    · simp [h0] at hc
    · rw [if_neg h0, zeroPad_data] at hc
      rcases List.mem_append.mp hc with h | h
      · rw [(List.mem_replicate.mp h).2]; rfl
      · exact repr_digits _ c h
  · by_cases h0 : k = 0
    · simp [h0]
    · rw [if_neg h0]
      show (zeroPad k (toString (M % 10 ^ k))).length = k
      rw [zeroPad_length]
      have := hfl h0
      omega
  · have hb : (toString (M / 10 ^ k)
          ++ (if k = 0 then "" else "." ++ zeroPad k (toString (M % 10 ^ k)))).length
        = (toString (M / 10 ^ k)).length + (if k = 0 then 0 else 1 + k) := by
      rw [String.length_append]
      by_cases h0 : k = 0
      · simp [h0]
      · rw [if_neg h0, if_neg h0, String.length_append, zeroPad_length]
        have := hfl h0
        have h1 : ".".length = 1 := rfl
        omega
    have hsg : (if s = true then "-" else "+").length = 1 := by cases s <;> rfl
    rw [String.length_append, zeroPad_length, hb, hsg]
    by_cases h0 : k = 0
    · simp only [h0, if_true] at hiu ⊢
      omega
    · simp only [h0, if_false] at hiu ⊢
      split_ifs <;> omega

/-! ## The claims, continued -/

/-- C11 (the code at the failing input): with byte 7 outside the mapped codes
and byte 9 other than 4, the mode label is `"#"`, the decimal representation
of byte 7 and a closing parenthesis (the format is `"#%d)"`), which is not the
escape `"#"` followed by the code alone. -/
theorem mode_escape_has_paren (d : Frame)
    (h7 : (d 7).val ∉ [0, 1, 8, 9, 16, 17, 20, 32, 33, 41, 49, 51])
    (h9 : (d 9).val ≠ 4) :
    (interpret d).mmode = "#" ++ toString (d 7).val ++ ")" ∧
    (interpret d).mmode ≠ "#" ++ toString (d 7).val := by
  have hm : (interpret d).mmode = "#" ++ toString (d 7).val ++ ")" := by
    rw [interpret_mmode, if_neg h9]
    simp only [List.mem_cons, List.mem_singleton, List.not_mem_nil, or_false, not_or] at h7
    unfold modeStage
    split <;> first | omega | rfl
  refine ⟨hm, ?_⟩
  rw [hm]
  intro h
  have hl := congrArg String.length h
  simp only [String.length_append] at hl
  have : ")".length = 1 := rfl
  omega

/-- Witness of `mode_escape_has_paren`: byte 7 equal to 5 gives `"#5)"`. -/
theorem mode_escape_has_paren_witness :
    (interpret (setByte exampleFrame 7 5)).mmode = "#5)" :=
  (mode_escape_has_paren (setByte exampleFrame 7 5) (by decide) (by decide)).1

/-- C12: with byte 9 other than 4 the mode label of a mapped byte 7 is the one
of the table (0 and 32 give a single space), and with byte 9 equal to 4 the
mode label is `"Diode"` whatever byte 7 is. -/
theorem mode_label_table (d : Frame) :
    ((d 9).val ≠ 4 →
      ((d 7).val = 0 → (interpret d).mmode = " ") ∧
      ((d 7).val = 1 → (interpret d).mmode = "Manual") ∧
      ((d 7).val = 8 → (interpret d).mmode = "AC-minmax") ∧
      ((d 7).val = 9 → (interpret d).mmode = "AC-manual") ∧
      ((d 7).val = 16 → (interpret d).mmode = "DC-minmax") ∧
      ((d 7).val = 17 → (interpret d).mmode = "DC-manual") ∧
      ((d 7).val = 20 → (interpret d).mmode = "Delta") ∧
      ((d 7).val = 32 → (interpret d).mmode = " ") ∧
      ((d 7).val = 33 → (interpret d).mmode = "Auto") ∧
      ((d 7).val = 41 → (interpret d).mmode = "AC-auto") ∧
      ((d 7).val = 49 → (interpret d).mmode = "DC-auto") ∧
      ((d 7).val = 51 → (interpret d).mmode = "Hold")) ∧
    ((d 9).val = 4 → (interpret d).mmode = "Diode") := by
  constructor
  · intro h9
    rw [interpret_mmode, if_neg h9]
    refine ⟨?_, ?_, ?_, ?_, ?_, ?_, ?_, ?_, ?_, ?_, ?_, ?_⟩ <;> intro h7 <;>
      (simp only [modeStage, h7]; try (split <;> rfl))
  · intro h9
    rw [interpret_mmode, if_pos h9]

/-- Witness of `mode_label_table`: mode code 33 without and with the diode
prefix code. -/
theorem mode_label_table_witness :
    (interpret exampleFrame).mmode = "Auto" ∧
    (interpret (setByte exampleFrame 9 4)).mmode = "Diode" :=
  ⟨((mode_label_table exampleFrame).1 (by decide)).2.2.2.2.2.2.2.2.1 (by decide),
   (mode_label_table (setByte exampleFrame 9 4)).2 (by decide)⟩

/-- C13: for a non-zero byte 10 the unit symbol is the one of the table for
the codes 1, 2, 4, 8, 16, 32, 64, 128 and `"#"` followed by the decimal
representation of byte 10 for every other code; the symbol is never empty. -/
theorem unit_symbol_nonzero (d : Frame) :
    ((d 10).val = 1 → (interpret d).units = "'F") ∧
    ((d 10).val = 2 → (interpret d).units = "'C") ∧
    ((d 10).val = 4 → (interpret d).units = "F") ∧
    ((d 10).val = 8 → (interpret d).units = "Hz") ∧
    ((d 10).val = 16 → (interpret d).units = "hFe") ∧
    ((d 10).val = 32 → (interpret d).units = "Ohm") ∧
    ((d 10).val = 64 → (interpret d).units = "A") ∧
    ((d 10).val = 128 → (interpret d).units = "V") ∧
    ((d 10).val ∉ [0, 1, 2, 4, 8, 16, 32, 64, 128] →
      (interpret d).units = "#" ++ toString (d 10).val) ∧
    (interpret d).units ≠ "" := by
  rw [interpret_units]
  refine ⟨?_, ?_, ?_, ?_, ?_, ?_, ?_, ?_, ?_, ?_⟩
  iterate 8 (intro h; simp only [unitsStage, h])
  · intro h
    simp only [List.mem_cons, List.mem_singleton, List.not_mem_nil, or_false, not_or] at h
    unfold unitsStage
    split <;> first | omega | rfl
  · unfold unitsStage
    split <;> dsimp only <;> first
      | decide
      | (intro h
         have hl := congrArg String.length h
         simp only [String.length_append] at hl
         have h1 : "#".length = 1 := rfl
         have h0 : "".length = 0 := rfl
         omega)

/-- Witness of `unit_symbol_nonzero`: unit codes 128 and 3. -/
theorem unit_symbol_nonzero_witness :
    (interpret exampleFrame).units = "V" ∧
    (interpret (setByte exampleFrame 10 3)).units = "#3" :=
  ⟨(unit_symbol_nonzero exampleFrame).2.2.2.2.2.2.2.1 (by decide),
   (unit_symbol_nonzero (setByte exampleFrame 10 3)).2.2.2.2.2.2.2.2.1 (by decide)⟩

/-- C14: the prefix label is fixed by byte 9 (`"n"` or none for 0, according
to byte 10 being 4; `"duty"`, none, `"M"`, `"K"`, `"m"`, `"u"` for 2, 4, 16, 32,
64, 128; `"#"` and the decimal code outside {0,2,4,8,16,32,64,128}), and the
prefix switch divides the value by 10 and adds one decimal place exactly when
byte 9 is 0 with byte 10 equal to 4, or byte 9 is 64 with byte 10 equal to 128
or 64; in every other case it leaves value and decimal places as they are. -/
theorem prefix_mapping (d : Frame) :
    ((d 9).val = 0 → (d 10).val = 4 → Reading.uprefix (interpret d) = "n") ∧
    ((d 9).val = 0 → (d 10).val ≠ 4 → Reading.uprefix (interpret d) = "") ∧
    ((d 9).val = 2 → Reading.uprefix (interpret d) = "duty") ∧
    ((d 9).val = 4 → Reading.uprefix (interpret d) = "") ∧
    ((d 9).val = 16 → Reading.uprefix (interpret d) = "M") ∧
    ((d 9).val = 32 → Reading.uprefix (interpret d) = "K") ∧
    ((d 9).val = 64 → Reading.uprefix (interpret d) = "m") ∧
    ((d 9).val = 128 → Reading.uprefix (interpret d) = "u") ∧
    ((d 9).val ∉ [0, 2, 4, 8, 16, 32, 64, 128] →
      Reading.uprefix (interpret d) = "#" ++ toString (d 9).val) ∧
    ((((d 9).val = 0 ∧ (d 10).val = 4) ∨
        ((d 9).val = 64 ∧ ((d 10).val = 128 ∨ (d 10).val = 64))) →
      (prefixStage d (beforePrefix d)).v = (beforePrefix d).v.div10 1 ∧
      (prefixStage d (beforePrefix d)).v.toRat = (beforePrefix d).v.toRat / 10 ∧
      (prefixStage d (beforePrefix d)).dps = (beforePrefix d).dps + 1) ∧
    (¬ (((d 9).val = 0 ∧ (d 10).val = 4) ∨
        ((d 9).val = 64 ∧ ((d 10).val = 128 ∨ (d 10).val = 64))) →
      (prefixStage d (beforePrefix d)).v = (beforePrefix d).v ∧
      (prefixStage d (beforePrefix d)).dps = (beforePrefix d).dps) := by
  have hle : (beforePrefix d).dps ≤ 3 := preUnit_dps_le d
  rw [interpret_uprefix_eq]
  refine ⟨?_, ?_, ?_, ?_, ?_, ?_, ?_, ?_, ?_, ?_, ?_⟩
  · intro h9 h10; simp only [prefixStage, h9, h10, if_true]
  · intro h9 h10; simp only [prefixStage, h9, h10, if_false]
  · intro h9; simp only [prefixStage, h9]
  · intro h9; simp only [prefixStage, h9]
  · intro h9; simp only [prefixStage, h9]
  · intro h9; simp only [prefixStage, h9]
  · intro h9; simp only [prefixStage, h9]; split <;> rfl
  · intro h9; simp only [prefixStage, h9]
  · intro h
    simp only [List.mem_cons, List.mem_singleton, List.not_mem_nil, or_false, not_or] at h
    unfold prefixStage
    split <;> first | omega | rfl
  · intro h
    have hp : prefixRescales d := h
    have hv : (prefixStage d (beforePrefix d)).v = (beforePrefix d).v.div10 1 := by
      rw [prefixStage_v, if_pos hp]
    refine ⟨hv, by rw [hv, toRat_div10], ?_⟩
    rw [prefixStage_dps, if_pos hp]
    omega
  · intro h
    have hp : ¬ prefixRescales d := h
    exact ⟨by rw [prefixStage_v, if_neg hp], by rw [prefixStage_dps, if_neg hp]⟩

/-- Witness of `prefix_mapping`: prefix code 128, and prefix code 0 with unit
code 4. -/
theorem prefix_mapping_witness :
    Reading.uprefix (interpret exampleFrame) = "u" ∧
    (prefixStage (setByte digitsFrame 10 4) (beforePrefix (setByte digitsFrame 10 4))).dps
      = (beforePrefix (setByte digitsFrame 10 4)).dps + 1 :=
  ⟨(prefix_mapping exampleFrame).2.2.2.2.2.2.2.1 (by decide),
   ((prefix_mapping (setByte digitsFrame 10 4)).2.2.2.2.2.2.2.2.2.1 (by decide)).2.2⟩

/-- C15 (counterexample): a non-overload frame with digit bytes and 4
decimal places (selector 49, unit code 32) has the numeric field `"+0.0123"`,
7 characters wide, not 6. -/
theorem numeric_field_width_seven :
    isOverload (setByte exampleFrame 10 32) = false ∧
    clampDps (interpret (setByte exampleFrame 10 32)).dps = 4 ∧
    numericField (setByte exampleFrame 10 32) = "+0.0123" ∧
    (numericField (setByte exampleFrame 10 32)).length ≠ 6 := by
  decide

/-- C15 (amended): for a non-overload frame whose bytes 1..4 are ASCII digits
the numeric field opens the display, starts with `'+'` or `'-'` (`'-'`
exactly when byte 0 is `'-'`), goes on with at least one digit and, when the
decimal-place count `k` is not 0, a point and exactly `k` digits (no point
when `k = 0`); it is exactly 5 characters wide for `k = 0`, 6 for `k` in 1..3
and 7 for `k = 4`. -/
theorem numeric_field_shape (cmd : String) (d : Frame) (hno : isOverload d = false)
    (h1 : 48 ≤ (d 1).val ∧ (d 1).val ≤ 57) (h2 : 48 ≤ (d 2).val ∧ (d 2).val ≤ 57)
    (h3 : 48 ≤ (d 3).val ∧ (d 3).val ≤ 57) (h4 : 48 ≤ (d 4).val ∧ (d 4).val ≤ 57) :
    display cmd d = numericField d ++ Reading.uprefix (interpret d) ++ (interpret d).units
      ++ "\n" ++ (interpret d).mmode ++ " " ++ (interpret d).minmax ∧
    ∃ (sign : Char) (ip fp : List Char),
      (numericField d).data
        = sign :: (ip ++ (if clampDps (interpret d).dps = 0 then [] else '.' :: fp)) ∧
      (sign = '+' ∨ sign = '-') ∧ (sign = '-' ↔ (d 0).val = 45) ∧
      ip ≠ [] ∧ (∀ c ∈ ip, c.isDigit = true) ∧ (∀ c ∈ fp, c.isDigit = true) ∧
      fp.length = clampDps (interpret d).dps ∧
      (numericField d).length
        = (if clampDps (interpret d).dps = 0 then 5
            else if clampDps (interpret d).dps = 4 then 7 else 6) := by
  refine ⟨display_of_not_overload cmd d hno, ?_⟩
  have hk := interpret_dps_le d
  have hc := clampDps_of_le _ hk
  have hge : 0 ≤ magnitude d := by unfold magnitude; omega
  have hlt : (magnitude d).natAbs < 10000 := by unfold magnitude; omega
  have hnl : ¬ magnitude d < 0 := not_lt.mpr hge
  have hv : (interpret d).v
      = ⟨decide ((d 0).val = 45), (magnitude d).natAbs, (interpret d).dps⟩ := by
    rw [interpret_v]
    split_ifs with h0 <;> simp [Dbl.negate, Dbl.div10, Dbl.ofInt, h0, hnl]
  obtain ⟨ip, fp, hdata, hip, hdi, hdf, hfl, hlen⟩ :=
    printfF_shape (interpret d).dps (magnitude d).natAbs (decide ((d 0).val = 45)) hk hlt
  refine ⟨if (d 0).val = 45 then '-' else '+', ip, fp, ?_, ?_, ?_, hip, hdi, hdf, ?_, ?_⟩
  · rw [numericField, hc, hv, hdata]
    simp
  · split_ifs
    · exact Or.inr rfl
    · exact Or.inl rfl
  · split_ifs with h0
    · simp [h0]
    · simp only [h0, iff_false]
      decide
  · rw [hc, hfl]
  · rw [numericField, hc, hv, hlen]

/-- Witness of `numeric_field_shape`: the example frame, 3 decimal places. -/
theorem numeric_field_shape_witness :
    display "" exampleFrame = numericField exampleFrame
      ++ Reading.uprefix (interpret exampleFrame) ++ (interpret exampleFrame).units
      ++ "\n" ++ (interpret exampleFrame).mmode ++ " " ++ (interpret exampleFrame).minmax :=
  (numeric_field_shape "" exampleFrame (by decide) (by decide) (by decide) (by decide)
    (by decide)).1

/-- C16: the display of a frame that does not match the overload sentinel is
the numeric field, the unit prefix, the unit symbol, a newline, the mode
label, one space and the min/max label, in this order; the min/max label is
`"min"` for byte 8 equal to 16, `"max"` for 32 and empty otherwise. -/
theorem display_structure (cmd : String) (d : Frame) (h : isOverload d = false) :
    display cmd d = numericField d ++ Reading.uprefix (interpret d) ++ (interpret d).units
      ++ "\n" ++ (interpret d).mmode ++ " " ++ (interpret d).minmax ∧
    ((d 8).val = 16 → (interpret d).minmax = "min") ∧
    ((d 8).val = 32 → (interpret d).minmax = "max") ∧
    ((d 8).val ≠ 16 → (d 8).val ≠ 32 → (interpret d).minmax = "") := by
  refine ⟨display_of_not_overload cmd d h, ?_, ?_, ?_⟩
  · intro h8; rw [interpret_minmax]; simp only [minmaxStage, h8]
  · intro h8; rw [interpret_minmax]; simp only [minmaxStage, h8]
  · intro h16 h32
    rw [interpret_minmax]
    unfold minmaxStage
    split <;> first | omega | rfl

/-- Witness of `display_structure`: the example frame with byte 8 equal to 16. -/
theorem display_structure_witness :
    display "" (setByte exampleFrame 8 16) = "+0.123uV\nAuto min" :=
  (display_structure "" (setByte exampleFrame 8 16) (by decide)).1.trans (by decide)

/-- C17 (counterexample): for the frame `2b 30 30 30 37 30 32 31 00 00 80`,
byte 6 equal to 50 and byte 7 equal to 49, the binary64 value `(7/100)*10` is
`0.7000000000000001`, one unit in the last place above the value `7/10` of
the same frame with byte 6 equal to 51; the two frames are displayed alike. -/
theorem dc_auto_value_differs :
    (dcAutoFrame 7).val = 49 ∧ (dcAutoFrame 6).val = 50 ∧
    b64Value dcAutoFrame = ⟨false, 6305039478318695, -53⟩ ∧
    b64Value (setByte dcAutoFrame 6 51) = ⟨false, 6305039478318694, -53⟩ ∧
    b64Value dcAutoFrame ≠ b64Value (setByte dcAutoFrame 6 51) ∧
    display "" dcAutoFrame = "+000.7V\nDC-auto " ∧
    display "" (setByte dcAutoFrame 6 51) = "+000.7V\nDC-auto " := by
  decide

/-- C17 (amended): with byte 7 equal to 49 and byte 6 equal to 50 the mode
switch multiplies the value by 10 and takes one decimal place off the two
that byte 6 selected, which leaves 1 decimal place; the interpreted frame has
the decimal places and the display of the same frame with byte 6 equal to
51 (nothing is said of the equality of the two values); in every other case
the mode switch changes neither value nor decimal places. -/
theorem dc_auto_correction (d : Frame) :
    ((d 7).val = 49 → (d 6).val = 50 →
      (selectDps d).dps = 2 ∧
      (modeStage d (selectDps d)).v = (selectDps d).v.mul10 ∧
      (modeStage d (selectDps d)).dps + 1 = (selectDps d).dps ∧
      (modeStage d (selectDps d)).dps = 1 ∧
      (interpret d).dps = (interpret (setByte d 6 51)).dps ∧
      ∀ cmd : String, display cmd d = display cmd (setByte d 6 51)) ∧
    (¬ ((d 7).val = 49 ∧ (d 6).val = 50) →
      ∀ r : Reading, (modeStage d r).v = r.v ∧ (modeStage d r).dps = r.dps) := by
  constructor
  · intro h7 h6
    have hA : ∀ i : Fin 14, i ≠ 6 → setByte d 6 51 i = d i := by
      intro i hi
      have : i.val ≠ 6 := fun h => hi (Fin.ext h)
      simp [setByte, this]
    have hA6 : (setByte d 6 51 6).val = 51 := by
      have : setByte d 6 51 6 = 51 := if_pos rfl
      rw [this]; rfl
    have hA7 : (setByte d 6 51 7).val = 49 := by rw [hA 7 (by decide), h7]
    have hmag : magnitude (setByte d 6 51) = magnitude d := by
      unfold magnitude
      rw [hA 1 (by decide), hA 2 (by decide), hA 3 (by decide), hA 4 (by decide)]
    have hsd : selectDps d = ⟨(Dbl.ofInt (magnitude d)).div10 2, 2, "", "", "", ""⟩ := by
      simp [selectDps, h6]
    have hse : selectDps (setByte d 6 51)
        = ⟨(Dbl.ofInt (magnitude d)).div10 1, 1, "", "", "", ""⟩ := by
      simp [selectDps, hA6, hmag]
    have hmd : modeStage d (selectDps d)
        = ⟨(Dbl.ofInt (magnitude d)).div10 1, 1, "DC-auto", "", "", ""⟩ := by
      rw [hsd]
      simp [modeStage, h7, h6, show (2 : Nat) = 1 + 1 from rfl, mul10_div10_succ]
    have hme : modeStage (setByte d 6 51) (selectDps (setByte d 6 51))
        = ⟨(Dbl.ofInt (magnitude d)).div10 1, 1, "DC-auto", "", "", ""⟩ := by
      rw [hse]
      simp [modeStage, hA7, hA6]
    have hint : interpret d = interpret (setByte d 6 51) := by
      unfold interpret unsigned
      rw [hmd, hme,
        polarity_frame_congr d (setByte d 6 51) _ (hA 0 (by decide)).symm,
        unitsStage_frame_congr d (setByte d 6 51) _ (hA 10 (by decide)).symm,
        prefixStage_frame_congr d (setByte d 6 51) _ (hA 9 (by decide)).symm
          (hA 10 (by decide)).symm,
        minmaxStage_frame_congr d (setByte d 6 51) _ (hA 8 (by decide)).symm]
    have hov : isOverload (setByte d 6 51) = isOverload d := by
      unfold isOverload
      rw [hA 0 (by decide), hA 1 (by decide), hA 2 (by decide), hA 3 (by decide),
        hA 4 (by decide)]
    refine ⟨by rw [hsd], ?_, by rw [hmd, hsd], by rw [hmd], by rw [hint], ?_⟩
    · rw [hmd, hsd]
      exact (mul10_div10_succ _ 1).symm
    · intro cmd
      simp only [display, format, hov, ← hint]
  · intro h r
    exact ⟨by rw [modeStage_v, if_neg h], by rw [modeStage_dps, if_neg h]⟩

/-- Witness of `dc_auto_correction`: the DC-auto frame with magnitude 7 has 1
decimal place after the mode switch and the display of the same frame with
byte 6 equal to 51. -/
theorem dc_auto_correction_witness :
    (modeStage dcAutoFrame (selectDps dcAutoFrame)).dps = 1 ∧
    display "" dcAutoFrame = display "" (setByte dcAutoFrame 6 51) :=
  have h := (dc_auto_correction dcAutoFrame).1 (by decide) (by decide)
  ⟨h.2.2.2.1, h.2.2.2.2.2 ""⟩

/-- C18 (counterexample): with byte 9 equal to 8 the unit prefix is not the
empty string, and the numeric field and the unit symbol are one space apart. -/
theorem base_prefix_not_empty :
    Reading.uprefix (interpret (setByte digitsFrame 9 8)) ≠ "" ∧
    display "" (setByte digitsFrame 9 8) = "+0123 V\nAuto " := by
  decide

/-- C18 (amended): with byte 9 equal to 8 the unit prefix is a single space,
which is not the empty string of the min/max default or of the no-prefix
case of byte 9 equal to 0, and in the display of a frame that does not match
the overload sentinel the numeric field is followed by one space and then
the unit symbol. -/
theorem base_prefix_is_space (cmd : String) (d : Frame) (h9 : (d 9).val = 8) :
    Reading.uprefix (interpret d) = " " ∧ Reading.uprefix (interpret d) ≠ "" ∧
    (isOverload d = false →
      display cmd d = numericField d ++ " " ++ (interpret d).units
        ++ "\n" ++ (interpret d).mmode ++ " " ++ (interpret d).minmax) := by
  have hu : Reading.uprefix (interpret d) = " " := by
    rw [interpret_uprefix_eq]
    simp only [prefixStage, h9]
  refine ⟨hu, by rw [hu]; decide, ?_⟩
  intro hno
  rw [display_of_not_overload cmd d hno, hu]

/-- Witness of `base_prefix_is_space`: a frame with prefix code 8. -/
theorem base_prefix_is_space_witness :
    Reading.uprefix (interpret (setByte digitsFrame 9 8)) = " " :=
  (base_prefix_is_space "" (setByte digitsFrame 9 8) (by decide)).1

/-- C19 (counterexample): no frame leaves the decimal-place count above 4
before the final clamp, and the clamp changes it for no frame. -/
theorem no_transient_out_of_range :
    ¬ ∃ d : Frame, 4 < (interpret d).dps ∨ clampDps (interpret d).dps ≠ (interpret d).dps := by
  rintro ⟨d, h | h⟩
  · exact absurd (interpret_dps_le d) (by omega)
  · exact h (clampDps_of_le _ (interpret_dps_le d))

/-- C19 (amended): for every frame the decimal-place count is within [0,4]
already before the final clamp (at most 3 before the prefix switch, and the
prefix switch and the units switch never both add one), so the clamp leaves
it as it is. -/
theorem dps_in_range_before_clamp (d : Frame) :
    (beforePrefix d).dps ≤ 3 ∧
    ¬ (prefixRescales d ∧ (d 10).val = 32) ∧
    0 ≤ (interpret d).dps ∧ (interpret d).dps ≤ 4 ∧
    clampDps (interpret d).dps = (interpret d).dps := by
  refine ⟨preUnit_dps_le d, ?_, Nat.zero_le _, interpret_dps_le d,
    clampDps_of_le _ (interpret_dps_le d)⟩
  unfold prefixRescales
  omega

/-- C20: in exact arithmetic, with
`m = (d1-48)*1000 + (d2-48)*100 + (d3-48)*10 + (d4-48)` and `k` the clamped
decimal-place count, the final value times `10 ^ k` is `m`, negated when
byte 0 is `'-'`; the decimal scale of the value is `k` itself and its
mantissa is `|m|`, so the numeric field shows the quotient and the remainder
of `|m|` by `10 ^ k` digit for digit and no digit of the reading is lost. -/
theorem exact_decimal_scaling (d : Frame) (m : Int) (k : Nat)
    (hm : m = (((d 1).val : Int) - 48) * 1000 + (((d 2).val : Int) - 48) * 100
      + (((d 3).val : Int) - 48) * 10 + (((d 4).val : Int) - 48))
    (hk : k = clampDps (interpret d).dps) :
    (interpret d).v.toRat * 10 ^ k = (if (d 0).val = 45 then -1 else 1) * (m : ℚ) ∧
    k = (interpret d).dps ∧
    (interpret d).v.scale = k ∧
    (interpret d).v.mant = m.natAbs ∧
    (interpret d).v.neg = (decide ((d 0).val = 45) != decide (m < 0)) ∧
    ((interpret d).v.mant * 10 ^ k) % 10 ^ (interpret d).v.scale = 0 ∧
    numericField d
      = (if (decide ((d 0).val = 45) != decide (m < 0)) = true then "-" else "+")
        ++ zeroPad ((if k = 0 then 5 else 6) - 1)
          (toString (m.natAbs / 10 ^ k)
            ++ (if k = 0 then "" else "." ++ zeroPad k (toString (m.natAbs % 10 ^ k)))) ∧
    m.natAbs = m.natAbs / 10 ^ k * 10 ^ k + m.natAbs % 10 ^ k := by
  have hmag : magnitude d = m := by
    rw [hm]; unfold magnitude; ring
  have hc := clampDps_of_le _ (interpret_dps_le d)
  have hkd : k = (interpret d).dps := by rw [hk, hc]
  have hv := interpret_v d
  rw [hmag, ← hkd] at hv
  have hsc : (interpret d).v.scale = k := by
    rw [hv]; split_ifs <;> simp [Dbl.negate, Dbl.div10, Dbl.ofInt]
  have hma : (interpret d).v.mant = m.natAbs := by
    rw [hv]; split_ifs <;> simp [Dbl.negate, Dbl.div10, Dbl.ofInt]
  have hng : (interpret d).v.neg = (decide ((d 0).val = 45) != decide (m < 0)) := by
    rw [hv]; split_ifs with h0 <;> simp [Dbl.negate, Dbl.div10, Dbl.ofInt, h0]
  refine ⟨?_, hkd, hsc, hma, hng, by rw [hsc]; exact Nat.mul_mod_left _ _, ?_,
    (Nat.div_add_mod' _ _).symm⟩
  · have h10 : ((10 : ℚ) ^ k) ≠ 0 := pow_ne_zero _ (by norm_num)
    rw [hv]
    split_ifs
    · rw [toRat_negate, toRat_div10_pow, toRat_ofInt]
      field_simp
    · rw [toRat_div10_pow, toRat_ofInt]
      field_simp
  · rw [numericField, ← hk, printfF_exact _ k _ hsc, hma, hng]

/-- Witness of `exact_decimal_scaling`: the example frame (magnitude 123, 3
decimal places) and the same frame with `'-'` as byte 0. -/
theorem exact_decimal_scaling_witness :
    (interpret exampleFrame).v.toRat * 10 ^ 3 = 123 ∧
    numericField exampleFrame = "+0.123" ∧
    (interpret (setByte exampleFrame 0 45)).v.toRat * 10 ^ 3 = -123 ∧
    numericField (setByte exampleFrame 0 45) = "-0.123" :=
  have h := exact_decimal_scaling exampleFrame 123 3 (by decide) (by decide)
  have g := exact_decimal_scaling (setByte exampleFrame 0 45) 123 3 (by decide) (by decide)
  have h0 : ¬ (exampleFrame 0).val = 45 := by decide
  have g0 : (setByte exampleFrame 0 45 0).val = 45 := by decide
  ⟨by have h1 := h.1; rw [if_neg h0] at h1; simpa using h1,
   h.2.2.2.2.2.2.1.trans (by decide),
   by have g1 := g.1; rw [if_pos g0] at g1; simpa using g1,
   g.2.2.2.2.2.2.1.trans (by decide)⟩

end Owon
